import Mathlib

/-!
Verification of the strp template-matching library.

The development embeds, at the byte level, the pattern compiler
(`sensetize_single` / `sensetize_multiple` and the flattening loops of the
procedural macros), the runtime matcher (`parse_single`,
`ParseMultiple::parse_multiple`, and the single- and multi-value result
plumbing generated by `try_parse_proc` / `try_scan_proc`), and the value
codecs (the `TryParse` impls for primitive integers via
`from_str` / `from_str_radix`, the `Hex` / `Binary` adapters, and the
`String` codec).

Conventions:
* Input bytes and template literals are `List Nat` (byte values 0..255);
  template source text is a `List Nat` of Unicode codepoints.
* Machine integers are modelled as `Int` with the explicit bounds of the
  Rust type (`from_str_radix` checks the bounds exactly where the Rust
  `checked_mul` / `checked_add` / `checked_sub` do).
* Errors are the `TryParseError` enum of the crate; the multi-value path
  erases step errors to `Unit`, exactly as the generated code's
  `.or(Err(()))?` does.
-/

namespace Strp

/-- Error kinds of `core::num::ParseIntError` that the embedded integer
parser can produce. -/
inductive IntErr where
  | empty
  | invalidDigit
  | posOverflow
  | negOverflow
deriving DecidableEq

/-- The crate's `TryParseError<T>`: a literal-anchor mismatch carrying the
expected literal bytes and the remaining input (as the Rust code collects
it, one `char` per byte), an invalid-UTF-8 capture, or an inner codec
error. -/
inductive TryParseError (ε : Type) where
  | expectedMismatch (expected : List Nat) (actual : List Nat)
  | invalidUtf8String
  | err (e : ε)
deriving DecidableEq

/-- UTF-8 encoding of one codepoint (used for template literals, which the
generated code compares as `str::bytes`). -/
def utf8EncodeChar (c : Nat) : List Nat :=
  if c < 128 then [c]
  else if c < 2048 then [192 + c / 64, 128 + c % 64]
  else if c < 65536 then [224 + c / 4096, 128 + c / 64 % 64, 128 + c % 64]
  else [240 + c / 262144, 128 + c / 4096 % 64, 128 + c / 64 % 64, 128 + c % 64]

/-- UTF-8 encoding of a codepoint sequence. -/
def utf8Encode (s : List Nat) : List Nat :=
  (s.map utf8EncodeChar).flatten

/-- Is `b` a UTF-8 continuation byte? -/
def isCont (b : Nat) : Bool :=
  128 ≤ b && b < 192

/-- UTF-8 validation/decoding with exactly the acceptance ranges of
`core::str::from_utf8` (RFC 3629: no overlong forms, no surrogates, no
codepoints above U+10FFFF).  Returns the codepoint sequence on success. -/
def utf8Decode : List Nat → Option (List Nat)
  | [] => some []
  | b :: rest =>
    if b < 128 then
      match utf8Decode rest with
      | some cs => some (b :: cs)
      | none => none
    else if b < 194 then none
    else if b < 224 then
      match rest with
      | b1 :: rest1 =>
        if isCont b1 then
          match utf8Decode rest1 with
          | some cs => some (((b - 192) * 64 + (b1 - 128)) :: cs)
          | none => none
        else none
      | [] => none
    else if b < 240 then
      match rest with
      | b1 :: b2 :: rest2 =>
        if (if b = 224 then 160 ≤ b1 && b1 < 192
            else if b = 237 then 128 ≤ b1 && b1 < 160
            else isCont b1) && isCont b2 then
          match utf8Decode rest2 with
          | some cs => some (((b - 224) * 4096 + (b1 - 128) * 64 + (b2 - 128)) :: cs)
          | none => none
        else none
      | _ => none
    else if b < 245 then
      match rest with
      | b1 :: b2 :: b3 :: rest3 =>
        if (if b = 240 then 144 ≤ b1 && b1 < 192
            else if b = 244 then 128 ≤ b1 && b1 < 144
            else isCont b1) && isCont b2 && isCont b3 then
          match utf8Decode rest3 with
          | some cs =>
            some (((b - 240) * 262144 + (b1 - 128) * 4096 + (b2 - 128) * 64 + (b3 - 128)) :: cs)
          | none => none
        else none
      | _ => none
    else none

/-- `char::to_digit(radix)`: decimal digits, then lowercase and uppercase
letters, accepted only below the radix. -/
def toDigit (radix c : Nat) : Option Nat :=
  let d? : Option Nat :=
    if 48 ≤ c && c ≤ 57 then some (c - 48)
    else if 97 ≤ c && c ≤ 122 then some (c - 87)
    else if 65 ≤ c && c ≤ 90 then some (c - 55)
    else none
  match d? with
  | some d => if d < radix then some d else none
  | none => none

/-- Digit-accumulation loop of `from_str_radix`; `lo`/`hi` are the bounds of
the Rust integer type, and the bound checks happen exactly where the Rust
`checked_mul`+`checked_add` (positive) or `checked_mul`+`checked_sub`
(negative) would overflow. -/
def digitsLoop (lo hi : Int) (radix : Nat) (pos : Bool) (acc : Int) :
    List Nat → Except IntErr Int
  | [] => .ok acc
  | c :: rest =>
    match toDigit radix c with
    | none => .error .invalidDigit
    | some d =>
      if pos then
        let acc' := acc * radix + d
        if hi < acc' then .error .posOverflow
        else digitsLoop lo hi radix pos acc' rest
      else
        let acc' := acc * radix - d
        if acc' < lo then .error .negOverflow
        else digitsLoop lo hi radix pos acc' rest

/-- `from_str_radix` for an integer type with range `[lo, hi]` (`lo < 0`
exactly for signed types): empty input, sign handling, then the digit
loop.  The decimal `FromStr` used by the default codec is this function at
radix 10. -/
def fromStrRadix (lo hi : Int) (radix : Nat) : List Nat → Except IntErr Int
  | [] => .error .empty
  | c :: rest =>
    if c = 43 then
      if rest = [] then .error .invalidDigit
      else digitsLoop lo hi radix true 0 rest
    else if c = 45 then
      if lo < 0 then
        if rest = [] then .error .invalidDigit
        else digitsLoop lo hi radix false 0 rest
      else .error .invalidDigit
    else digitsLoop lo hi radix true 0 (c :: rest)

/-- Integer codec: collect the capture, validate UTF-8 (the
`core::str::from_utf8(..).or(Err(TryParseError::InvalidUtf8String))?` step
shared by the decimal `TryParse` impls and the `Hex`/`Binary` adapters),
then parse at the given radix, wrapping the parser's error unchanged in
`TryParseError::Err`. -/
def intCodec (lo hi : Int) (radix : Nat) (bytes : List Nat) :
    Except (TryParseError IntErr) Int :=
  match utf8Decode bytes with
  | none => .error .invalidUtf8String
  | some s =>
    match fromStrRadix lo hi radix s with
    | .ok v => .ok v
    | .error e => .error (.err e)

def u32Max : Int := 4294967295
def i32Min : Int := -2147483648
def i32Max : Int := 2147483647

/-- Default (decimal) codec for `u32`: `FromStr`, i.e. radix 10. -/
def decU32 : List Nat → Except (TryParseError IntErr) Int :=
  intCodec 0 u32Max 10

/-- The `Hex<u32>` adapter: same validation, radix 16. -/
def hexU32 : List Nat → Except (TryParseError IntErr) Int :=
  intCodec 0 u32Max 16

/-- The `Binary<i32>` adapter: same validation, radix 2. -/
def binI32 : List Nat → Except (TryParseError IntErr) Int :=
  intCodec i32Min i32Max 2

/-- The `Hex<i32>` adapter. -/
def hexI32 : List Nat → Except (TryParseError IntErr) Int :=
  intCodec i32Min i32Max 16

/-- The `String` codec: validate UTF-8, return the text (as codepoints);
its `FromStr` step is infallible. -/
def stringCodec (bytes : List Nat) : Except (TryParseError Empty) (List Nat) :=
  match utf8Decode bytes with
  | none => .error .invalidUtf8String
  | some s => .ok s

/-- The literal comparison `iter.by_ref().take(cmp.len()).eq(cmp)` of
`parse_single`: returns whether the comparison succeeded together with how
many input bytes the short-circuiting `Iterator::eq` consumed. -/
def litCmp : List Nat → List Nat → Bool × Nat
  | [], _ => (true, 0)
  | _ :: _, [] => (false, 0)
  | l :: ls, x :: xs =>
    if l = x then
      let r := litCmp ls xs
      (r.1, r.2 + 1)
    else (false, 1)

/-- `__private::parse_single`: compare the leading literal (on mismatch,
report the literal and the full pre-comparison remaining input, the
`iter_err` clone); on success capture with
`from_fn(|| iter.next_if(|e| *e != delim))` — i.e. the longest
delimiter-free prefix, leaving the delimiter unconsumed — or the whole
remaining input when there is no delimiter, and hand the capture to the
codec.  The second component is the iterator state after the call (the
repository's codecs drain their whole capture). -/
def parseSingle (codec : List Nat → Except (TryParseError ε) α) (lit : List Nat)
    (delim : Option Nat) (input : List Nat) :
    Except (TryParseError ε) α × List Nat :=
  let c := litCmp lit input
  if c.1 then
    let rest := input.drop lit.length
    match delim with
    | some d => (codec (rest.takeWhile (· != d)), rest.dropWhile (· != d))
    | none => (codec rest, [])
  else (.error (.expectedMismatch lit input), input.drop c.2)

/-- Capture window handed to the codec by `parse_single` once the leading
literal matched (specification helper). -/
def captureOf (delim : Option Nat) (rest : List Nat) : List Nat :=
  match delim with
  | some d => rest.takeWhile (· != d)
  | none => rest

/-- Iterator state after the codec ran (specification helper). -/
def restAfterOf (delim : Option Nat) (rest : List Nat) : List Nat :=
  match delim with
  | some d => rest.dropWhile (· != d)
  | none => []

/-- The single-value match of `try_parse_proc`: run `parse_single`, then —
when the template declared a trailing literal — compare it against the
remaining iterator (`iter.clone().eq(m_str.bytes())`) before looking at
the placeholder's result, reporting `ExpectedMismatch` on a trailing
mismatch. -/
def tryParseSingle (codec : List Nat → Except (TryParseError ε) α) (lit : List Nat)
    (delim : Option Nat) (trailing : Option (List Nat)) (input : List Nat) :
    Except (TryParseError ε) α :=
  let r := parseSingle codec lit delim input
  match trailing with
  | some t => if r.2 = t then r.1 else .error (.expectedMismatch t r.2)
  | none => r.1

/-- One step of a multi-value match: the leading literal bytes, optional
delimiter byte, the codec the code generator selected for the placeholder
(`Hex<_>`/`Binary<_>`/inferred, composed with `into_inner`), and the
inline destination name, if any. -/
structure Step (α ε : Type) where
  lit : List Nat
  delim : Option Nat
  codec : List Nat → Except (TryParseError ε) α
  inlined : Option (List Nat)

/-- `ParseMultiple::parse_multiple`: run `parse_single` for each step in
template order over the shared iterator; any step failure is erased to
`Err(())` by `.or(Err(()))?`. -/
def parseMultiple : List (Step α ε) → List Nat → Except Unit (List α × List Nat)
  | [], input => .ok ([], input)
  | s :: ss, input =>
    match parseSingle s.codec s.lit s.delim input with
    | (.ok v, input') =>
      match parseMultiple ss input' with
      | .ok (vs, rem) => .ok (v :: vs, rem)
      | .error e => .error e
    | (.error _, _) => .error ()

/-- Inline destinations: an assignment environment keyed by the
destination identifier. -/
def Env (α : Type) : Type := List Nat → α

/-- The `#inlined = #get_val` assignments emitted by `try_scan_proc`, run
in template order once the whole match succeeded. -/
def writeInls : List (Step α ε) → List α → Env α → Env α
  | s :: ss, v :: vs, env =>
    match s.inlined with
    | some n => writeInls ss vs (fun m => if m = n then v else env m)
    | none => writeInls ss vs env
  | _, _, env => env

/-- The returned tuple built by `try_scan_proc`: the values of the
non-inline placeholders, in template order. -/
def selectAnon : List (Step α ε) → List α → List α
  | s :: ss, v :: vs =>
    match s.inlined with
    | some _ => selectAnon ss vs
    | none => v :: selectAnon ss vs
  | _, _ => []

/-- The multi-value match of `try_scan_proc`: `parse_multiple`, then the
trailing-literal comparison, then — only on overall success — the inline
assignments and the tuple construction.  A step failure surfaces as
`TryParseError::Err(())`. -/
def tryScan (steps : List (Step α ε)) (tail : Option (List Nat)) (env : Env α)
    (input : List Nat) : Except (TryParseError Unit) (List α) × Env α :=
  match parseMultiple steps input with
  | .error _ => (.error (.err ()), env)
  | .ok (vals, rem) =>
    match tail with
    | some t =>
      if rem = t then (.ok (selectAnon steps vals), writeInls steps vals env)
      else (.error (.expectedMismatch t rem), env)
    | none => (.ok (selectAnon steps vals), writeInls steps vals env)

/-- Placeholder base selector: `{}`/`{name}` (default decimal), `{:x}`
(hex), `{:b}` (binary). -/
inductive VarTy where
  | normal
  | hex
  | binary
deriving DecidableEq

/-- A compiled placeholder: optional inline destination identifier and the
base selector. -/
structure Var where
  inlined : Option (List Nat)
  ty : VarTy
deriving DecidableEq

/-- Compile-time panics of the procedural macros, as an error enum. -/
inductive CompileError where
  | missingTokenAfterBrace
  | missingClosingBrace
  | invalidBase
  | badRightBrace
  | missingPlaceholder
  | tooManyPlaceholders
deriving DecidableEq

/-- The placeholder-body loop of `sensetize_single`: read
`<ident>[:<ty>]` up to the closing brace; the base is decided by the LAST
character accumulated after the colon (`ty_str.pop()`), any other
character there is a compile error.  Returns the parsed `Var` and the
template characters after the closing brace. -/
def phLoop (pushing : Bool) (ident tyStr : List Nat) :
    List Nat → Except CompileError (Var × List Nat)
  | [] => .error .missingClosingBrace
  | c :: rest =>
    if c = 125 then
      let inl : Option (List Nat) := if ident = [] then none else some ident
      match tyStr.getLast? with
      | none => .ok (⟨inl, .normal⟩, rest)
      | some t =>
        if t = 120 then .ok (⟨inl, .hex⟩, rest)
        else if t = 98 then .ok (⟨inl, .binary⟩, rest)
        else .error .invalidBase
    else if c = 58 then phLoop false ident tyStr rest
    else if pushing then phLoop pushing (ident ++ [c]) tyStr rest
    else phLoop pushing ident (tyStr ++ [c]) rest

/-- The outer loop of `sensetize_single`, accumulating the literal `m_str`
(with `acc` the accumulator): double braces escape to a single literal
brace, a lone right brace is a compile error, an unescaped left brace
starts a placeholder (stopping the scan right after its closing brace and
peeking — not consuming — the next character as the delimiter).  Returns
the literal, the optional `(var, delimiter)` pair, and the unconsumed
remainder of the template. -/
def sensetizeSingleAux (acc : List Nat) :
    List Nat → Except CompileError (List Nat × Option (Var × Option Nat) × List Nat)
  | [] => .ok (acc, none, [])
  | c :: rest =>
    if c = 123 then
      match rest with
      | [] => .error .missingTokenAfterBrace
      | c2 :: rest2 =>
        if c2 = 123 then sensetizeSingleAux (acc ++ [123]) rest2
        else
          match phLoop true [] [] (c2 :: rest2) with
          | .error e => .error e
          | .ok (v, rem) => .ok (acc, some (v, rem.head?), rem)
    else if c = 125 then
      match rest with
      | c2 :: rest2 =>
        if c2 = 125 then sensetizeSingleAux (acc ++ [125]) rest2
        else .error .badRightBrace
      | [] => .error .badRightBrace
    else sensetizeSingleAux (acc ++ [c]) rest

/-- A compiled `(leading_literal, placeholder, delimiter)` triple; the
literal and the delimiter are template codepoints here, turned into bytes
when the runtime steps are built. -/
abbrev Seg : Type := List Nat × Var × Option Nat

/-- `sensetize_multiple` followed by the flattening loop of
`try_scan_proc`: the ordered segment list plus the optional trailing
literal.  `sensetize_multiple` recurses while template characters remain;
every recursion strictly shrinks the remainder (a placeholder consumes at
least its two braces), so fuel `length + 1` — as seeded by
`compileMulti` — never runs out; the fuel-exhaustion branch is
unreachable. -/
def compileChain (fuel : Nat) (input : List Nat) :
    Except CompileError (List Seg × Option (List Nat)) :=
  match fuel with
  | 0 => .error .missingTokenAfterBrace
  | fuel + 1 =>
    match sensetizeSingleAux [] input with
    | .error e => .error e
    | .ok (m, none, _) => .ok ([], some m)
    | .ok (m, some (v, d), rem) =>
      if rem = [] then .ok ([(m, v, d)], none)
      else
        match compileChain fuel rem with
        | .error e => .error e
        | .ok (vars, tail) => .ok ((m, v, d) :: vars, tail)

/-- Compile a template (codepoints) to the multi-value pattern. -/
def compileMulti (input : List Nat) :
    Except CompileError (List Seg × Option (List Nat)) :=
  compileChain (input.length + 1) input

/-- The single-value compilation of `try_parse_proc`: exactly one
placeholder is required — none panics `missing "{}"`, a second panics
towards `scan!`. -/
def compileSingle (t : List Nat) : Except CompileError (Seg × Option (List Nat)) :=
  match compileMulti t with
  | .error e => .error e
  | .ok ([], _) => .error .missingPlaceholder
  | .ok ([v], tail) => .ok (v, tail)
  | .ok (_ :: _ :: _, _) => .error .tooManyPlaceholders

/-- Build a runtime step from a compiled segment: the literal becomes its
UTF-8 bytes (`m_str.bytes()`), the delimiter character is cast `as u8`
(low byte of the codepoint), and the codec is the one the code generator
selects for the placeholder's type. -/
def segStep (seg : Seg) (codec : List Nat → Except (TryParseError ε) α) : Step α ε :=
  ⟨utf8Encode seg.1, seg.2.2.map (· % 256), codec, seg.2.1.inlined⟩

/-- Run a compiled single-value pattern: literal bytes, `as u8` delimiter,
UTF-8 trailing literal. -/
def runSingle (codec : List Nat → Except (TryParseError ε) α)
    (cp : Seg × Option (List Nat)) (input : List Nat) : Except (TryParseError ε) α :=
  tryParseSingle codec (utf8Encode cp.1.1) (cp.1.2.2.map (· % 256))
    (cp.2.map utf8Encode) input

/-- Adjacency invariant between a recorded delimiter and the literal of
the following segment (or the trailing literal for the last segment): a
non-empty following literal starts with the delimiter character. -/
def adjOK : List Seg → Option (List Nat) → Prop
  | [], _ => True
  | [(_, _, d)], tail =>
    ∀ c, d = some c → ∀ m, tail = some m → m ≠ [] → m.head? = some c
  | (_, _, d) :: (m2, v2, d2) :: rest, tail =>
    (∀ c, d = some c → m2 ≠ [] → m2.head? = some c)
    ∧ adjOK ((m2, v2, d2) :: rest) tail

/-!
Concrete templates, compiled segments, runtime steps and inputs used to
instantiate the general theorems.  Templates are codepoint lists of the
corresponding template strings from the crate's tests and documentation.
-/

/-- Template "{{{}}}" (brace escaping around an anonymous placeholder). -/
def tmplBraces : List Nat := [123, 123, 123, 125, 125, 125]

/-- Template "0x{:x}" (hex placeholder after a literal). -/
def tmplHexPat : List Nat := [48, 120, 123, 58, 120, 125]

/-- Template "ab{}c" (leading and trailing literals around a placeholder). -/
def tmplAbc : List Nat := [97, 98, 123, 125, 99]

/-- Template "{}{}" (a placeholder immediately followed by another). -/
def tmplAdj : List Nat := [123, 125, 123, 125]

/-- Template "a{}, {}" (two-step scan with a leading literal). -/
def tmplScanA : List Nat := [97, 123, 125, 44, 32, 123, 125]

/-- Template "0b{v0:b} 0x{v1:x}" (two inline placeholders, binary and hex). -/
def tmplScanB : List Nat :=
  [48, 98, 123, 118, 48, 58, 98, 125, 32, 48, 120, 123, 118, 49, 58, 120, 125]

/-- First segment of the compiled "a{}, {}". -/
def segA1 : Seg := ([97], ⟨none, .normal⟩, some 44)

/-- Second segment of the compiled "a{}, {}". -/
def segA2 : Seg := ([44, 32], ⟨none, .normal⟩, none)

/-- First segment of the compiled "0b{v0:b} 0x{v1:x}". -/
def segB1 : Seg := ([48, 98], ⟨some [118, 48], .binary⟩, some 32)

/-- Second segment of the compiled "0b{v0:b} 0x{v1:x}". -/
def segB2 : Seg := ([32, 48, 120], ⟨some [118, 49], .hex⟩, none)

/-- First segment of the compiled "{}{}". -/
def segAdj1 : Seg := ([], ⟨none, .normal⟩, some 123)

/-- Second segment of the compiled "{}{}": its literal anchor is empty. -/
def segAdj2 : Seg := ([], ⟨none, .normal⟩, none)

/-- First segment of the compiled "{x}, {}". -/
def segW1 : Seg := ([], ⟨some [120], .normal⟩, some 44)

/-- Second segment of the compiled "{x}, {}". -/
def segW2 : Seg := ([44, 32], ⟨none, .normal⟩, none)

def stepA1 : Step Int IntErr := segStep segA1 decU32
def stepA2 : Step Int IntErr := segStep segA2 decU32
def stepB1 : Step Int IntErr := segStep segB1 binI32
def stepB2 : Step Int IntErr := segStep segB2 hexI32
def stepAdj1 : Step (List Nat) Empty := segStep segAdj1 stringCodec
def stepAdj2 : Step (List Nat) Empty := segStep segAdj2 stringCodec
def stepW1 : Step Int IntErr := segStep segW1 decU32
def stepW2 : Step Int IntErr := segStep segW2 decU32

/-- All destinations start at 0. -/
def envZero : Env Int := fun _ => 0

/-- All destinations start at -1 (as in the crate's inline tests). -/
def envNeg : Env Int := fun _ => -1

/-- All destinations start at the empty string. -/
def envNil : Env (List Nat) := fun _ => []

/-- Input "b, 1" (leading literal mismatch for "a{}, {}"). -/
def inputScanA1 : List Nat := [98, 44, 32, 49]

/-- Input "ax, 1" (first capture fails to decode for "a{}, {}"). -/
def inputScanA2 : List Nat := [97, 120, 44, 32, 49]

/-- Input "0b01010 0xDEFG" (first step decodes 10, second step fails). -/
def inputScanB : List Nat := [48, 98, 48, 49, 48, 49, 48, 32, 48, 120, 68, 69, 70, 71]

/-- Input "a{b" (contains the recorded delimiter of "{}{}"). -/
def inputAdj : List Nat := [97, 123, 98]

/-- Input "10, 20". -/
def inputW : List Nat := [49, 48, 44, 32, 50, 48]

/-- Input "{30}". -/
def inputBraces : List Nat := [123, 51, 48, 125]

/-- Input "0x1F". -/
def inputHexOk : List Nat := [48, 120, 49, 70]

/-- Input "0xZZ". -/
def inputHexBad : List Nat := [48, 120, 90, 90]

/-- Input "xb1c" (mismatch in the leading literal of "ab{}c"). -/
def inputAbc : List Nat := [120, 98, 49, 99]

/-! Basic lemmas about the literal comparison and `parseSingle`. -/

theorem litCmp_fst_iff (lit input : List Nat) :
    (litCmp lit input).1 = true ↔ input.take lit.length = lit := by
  induction lit generalizing input with
  | nil => simp [litCmp]
  | cons l ls ih =>
    cases input with
    | nil => simp [litCmp]
    | cons x xs =>
      by_cases h : l = x
      · subst h
        simp only [litCmp, if_pos rfl, List.length_cons, List.take_succ_cons,
          List.cons.injEq, true_and]
        exact ih xs
      · simp only [litCmp, if_neg h, List.length_cons, List.take_succ_cons,
          List.cons.injEq]
        constructor
        · intro hf; exact absurd hf Bool.false_ne_true
        · rintro ⟨hx, -⟩; exact absurd hx.symm h

theorem parseSingle_ok (codec : List Nat → Except (TryParseError ε) α)
    (lit : List Nat) (delim : Option Nat) (input : List Nat)
    (hlit : input.take lit.length = lit) :
    parseSingle codec lit delim input =
      (codec (captureOf delim (input.drop lit.length)),
        restAfterOf delim (input.drop lit.length)) := by
  have h : (litCmp lit input).1 = true := (litCmp_fst_iff lit input).mpr hlit
  cases delim <;> simp [parseSingle, h, captureOf, restAfterOf]

theorem parseSingle_mismatch (codec : List Nat → Except (TryParseError ε) α)
    (lit : List Nat) (delim : Option Nat) (input : List Nat)
    (hlit : input.take lit.length ≠ lit) :
    parseSingle codec lit delim input =
      (.error (.expectedMismatch lit input), input.drop (litCmp lit input).2) := by
  have h : (litCmp lit input).1 = false := by
    cases hb : (litCmp lit input).1
    · rfl
    · exact absurd ((litCmp_fst_iff lit input).mp hb) hlit
  simp [parseSingle, h]

/-! Capture-window lemmas (`takeWhile`/`dropWhile` over the delimiter). -/

theorem mem_takeWhile_ne (d : Nat) (l : List Nat) :
    ∀ b ∈ l.takeWhile (· != d), b ≠ d := by
  induction l with
  | nil => simp
  | cons x xs ih =>
    by_cases h : x = d
    · simp [List.takeWhile_cons, h]
    · intro b hb
      rw [List.takeWhile_cons_of_pos (by simpa using h)] at hb
      rcases List.mem_cons.mp hb with rfl | hb
      · exact h
      · exact ih b hb

theorem takeWhile_ne_longest (d : Nat) (l : List Nat) :
    ∀ n, n ≤ l.length → (∀ b ∈ l.take n, b ≠ d) →
      n ≤ (l.takeWhile (· != d)).length := by
  induction l with
  | nil => intro n hn _; simpa using hn
  | cons x xs ih =>
    intro n hn hmem
    cases n with
    | zero => exact Nat.zero_le _
    | succ m =>
      have hx : x ≠ d := hmem x (by simp)
      rw [List.takeWhile_cons_of_pos (by simpa using hx)]
      simp only [List.length_cons, Nat.succ_le_succ_iff]
      exact ih m (Nat.le_of_succ_le_succ hn)
        (fun b hb => hmem b (by simp [List.take_succ_cons, hb]))

theorem dropWhile_ne_of_mem (d : Nat) (l : List Nat) (hd : d ∈ l) :
    ∃ l', l.dropWhile (· != d) = d :: l' := by
  induction l with
  | nil => cases hd
  | cons x xs ih =>
    by_cases h : x = d
    · subst h
      exact ⟨xs, by simp [List.dropWhile_cons]⟩
    · rw [List.dropWhile_cons_of_pos (by simpa using h)]
      exact ih (List.mem_cons.mp hd |>.resolve_left (fun hx => h hx.symm))

theorem takeWhile_ne_of_not_mem (d : Nat) (l : List Nat) (hd : d ∉ l) :
    l.takeWhile (· != d) = l ∧ l.dropWhile (· != d) = [] := by
  induction l with
  | nil => simp
  | cons x xs ih =>
    have hx : x ≠ d := fun h => hd (h ▸ List.mem_cons_self x xs)
    have hxs : d ∉ xs := fun h => hd (List.mem_cons_of_mem x h)
    rw [List.takeWhile_cons_of_pos (by simpa using hx),
      List.dropWhile_cons_of_pos (by simpa using hx)]
    exact ⟨by rw [(ih hxs).1], (ih hxs).2⟩

/-! Lemmas about the multi-value machinery. -/

theorem parseMultiple_append (a b : List (Step α ε)) (input : List Nat) :
    parseMultiple (a ++ b) input =
      match parseMultiple a input with
      | .ok (vs, mid) =>
        match parseMultiple b mid with
        | .ok (vs2, rem) => .ok (vs ++ vs2, rem)
        | .error e => .error e
      | .error _ => .error () := by
  induction a generalizing input with
  | nil =>
    rcases h : parseMultiple b input with e | ⟨vs2, rem⟩ <;>
      simp [parseMultiple, h]
  | cons s ss ih =>
    show parseMultiple (s :: (ss ++ b)) input = _
    rcases hs : parseSingle s.codec s.lit s.delim input with ⟨r, input'⟩
    cases r with
    | error e =>
      simp [parseMultiple, hs]
    | ok v =>
      simp only [parseMultiple, hs, ih input']
      rcases h1 : parseMultiple ss input' with e | ⟨vs, mid⟩
      · simp [h1]
      · simp only [h1]
        rcases h2 : parseMultiple b mid with e | ⟨vs2, rem⟩ <;> simp [h2]

theorem parseMultiple_length (steps : List (Step α ε)) (input : List Nat)
    (vals : List α) (rem : List Nat)
    (h : parseMultiple steps input = .ok (vals, rem)) :
    vals.length = steps.length := by
  induction steps generalizing input vals rem with
  | nil =>
    simp only [parseMultiple, Except.ok.injEq, Prod.mk.injEq] at h
    simp [← h.1]
  | cons s ss ih =>
    rcases hs : parseSingle s.codec s.lit s.delim input with ⟨r, input'⟩
    cases r with
    | error e => simp [parseMultiple, hs] at h
    | ok v =>
      rcases h1 : parseMultiple ss input' with e | ⟨vs, rem'⟩
      · simp [parseMultiple, hs, h1] at h
      · simp only [parseMultiple, hs, h1, Except.ok.injEq, Prod.mk.injEq] at h
        rw [← h.1]
        simp [ih input' vs rem' h1]

theorem selectAnon_length (steps : List (Step α ε)) (vals : List α)
    (hlen : vals.length = steps.length) :
    (selectAnon steps vals).length = steps.countP (fun s => s.inlined.isNone) := by
  induction steps generalizing vals with
  | nil =>
    cases vals with
    | nil => simp [selectAnon]
    | cons v vs => simp at hlen
  | cons s ss ih =>
    cases vals with
    | nil => simp at hlen
    | cons v vs =>
      simp only [List.length_cons, Nat.succ_inj] at hlen
      rcases hi : s.inlined with - | n <;>
        simp [selectAnon, hi, List.countP_cons, ih vs hlen]

theorem writeInls_frame (steps : List (Step α ε)) (vals : List α) (env : Env α)
    (n : List Nat) (hn : n ∉ steps.filterMap Step.inlined) :
    writeInls steps vals env n = env n := by
  induction steps generalizing vals env with
  | nil => cases vals <;> rfl
  | cons s ss ih =>
    cases vals with
    | nil => rfl
    | cons v vs =>
      rcases hi : s.inlined with - | m
      · simp only [writeInls, hi]
        exact ih vs env (by simpa [List.filterMap_cons, hi] using hn)
      · simp only [writeInls, hi]
        rw [List.filterMap_cons, hi] at hn
        have h1 : n ≠ m := fun h => hn (by simp [h])
        have h2 : n ∉ ss.filterMap Step.inlined := fun h => hn (by simp [h])
        rw [ih vs _ h2]
        simp [h1]

theorem writeInls_get (steps : List (Step α ε)) (vals : List α) (env : Env α)
    (hnd : (steps.filterMap Step.inlined).Nodup)
    (i : Nat) (s : Step α ε) (n : List Nat) (v : α)
    (hs : steps[i]? = some s) (hn : s.inlined = some n) (hv : vals[i]? = some v) :
    writeInls steps vals env n = v := by
  induction steps generalizing vals env i with
  | nil => simp at hs
  | cons s0 ss ih =>
    cases vals with
    | nil => simp at hv
    | cons v0 vs =>
      cases i with
      | zero =>
        simp only [List.getElem?_cons_zero, Option.some.injEq] at hs hv
        subst hs; subst hv
        simp only [writeInls, hn]
        have hrest : n ∉ ss.filterMap Step.inlined := by
          rw [List.filterMap_cons, hn] at hnd
          exact (List.nodup_cons.mp hnd).1
        rw [writeInls_frame ss vs _ n hrest]
        simp
      | succ j =>
        simp only [List.getElem?_cons_succ] at hs hv
        rcases hi : s0.inlined with - | m <;> simp only [writeInls, hi]
        · refine ih vs env ?_ j hs hv
          rwa [List.filterMap_cons, hi] at hnd
        · refine ih vs _ ?_ j hs hv
          rw [List.filterMap_cons, hi] at hnd
          exact (List.nodup_cons.mp hnd).2

theorem sens_acc (acc input : List Nat) (m : List Nat) (cv : Option (Var × Option Nat))
    (rem : List Nat) :
    sensetizeSingleAux acc input = .ok (m, cv, rem) → ∃ t, m = acc ++ t := by
  induction acc, input using sensetizeSingleAux.induct with
  | case1 acc =>
    intro h
    simp only [sensetizeSingleAux, Except.ok.injEq, Prod.mk.injEq] at h
    exact ⟨[], by simp [← h.1]⟩
  | case2 acc =>
    intro h
    simp [sensetizeSingleAux] at h
  | case3 acc rest ih =>
    intro h
    simp only [sensetizeSingleAux, if_pos rfl] at h
    obtain ⟨t, ht⟩ := ih h
    exact ⟨123 :: t, by simp [ht]⟩
  | case4 acc b rest hb e hp =>
    intro h
    simp [sensetizeSingleAux, hb, hp] at h
  | case5 acc b rest hb v rem2 hp =>
    intro h
    simp only [sensetizeSingleAux, if_pos rfl, if_neg hb, hp, if_true,
      Except.ok.injEq, Prod.mk.injEq] at h
    exact ⟨[], by simp [← h.1]⟩
  | case6 acc rest1 h125 ih =>
    intro h
    simp only [sensetizeSingleAux, if_neg h125, if_pos rfl] at h
    obtain ⟨t, ht⟩ := ih h
    exact ⟨125 :: t, by simp [ht]⟩
  | case7 acc b1 rest1 hb1 h125 =>
    intro h
    simp [sensetizeSingleAux, hb1] at h
  | case8 acc h125 =>
    intro h
    have he : sensetizeSingleAux acc [125] = .error .badRightBrace := rfl
    rw [he] at h
    cases h
  | case9 acc c rest hc1 hc2 ih =>
    intro h
    rw [sensetizeSingleAux.eq_def] at h
    simp only [if_neg hc1, if_neg hc2] at h
    obtain ⟨t, ht⟩ := ih h
    exact ⟨c :: t, by simp [ht]⟩

theorem sens_delim (acc input : List Nat) (m : List Nat) (v : Var) (d : Option Nat)
    (rem : List Nat) :
    sensetizeSingleAux acc input = .ok (m, some (v, d), rem) → d = rem.head? := by
  induction acc, input using sensetizeSingleAux.induct with
  | case1 acc =>
    intro h
    simp only [sensetizeSingleAux, Except.ok.injEq, Prod.mk.injEq] at h
    cases h.2.1
  | case2 acc =>
    intro h
    simp [sensetizeSingleAux] at h
  | case3 acc rest ih =>
    intro h
    simp only [sensetizeSingleAux, if_pos rfl] at h
    exact ih h
  | case4 acc b rest hb e hp =>
    intro h
    simp [sensetizeSingleAux, hb, hp] at h
  | case5 acc b rest hb v2 rem2 hp =>
    intro h
    simp only [sensetizeSingleAux, if_pos rfl, if_neg hb, hp, if_true,
      Except.ok.injEq, Prod.mk.injEq] at h
    obtain ⟨-, hsome, hrem⟩ := h
    cases hsome
    rw [← hrem]
  | case6 acc rest1 h125 ih =>
    intro h
    simp only [sensetizeSingleAux, if_neg h125, if_pos rfl] at h
    exact ih h
  | case7 acc b1 rest1 hb1 h125 =>
    intro h
    simp [sensetizeSingleAux, hb1] at h
  | case8 acc h125 =>
    intro h
    have he : sensetizeSingleAux acc [125] = .error .badRightBrace := rfl
    rw [he] at h
    cases h
  | case9 acc c rest hc1 hc2 ih =>
    intro h
    rw [sensetizeSingleAux.eq_def] at h
    simp only [if_neg hc1, if_neg hc2] at h
    exact ih h

theorem sens_head (c : Nat) (r m : List Nat) (cv : Option (Var × Option Nat))
    (rem : List Nat) (h : sensetizeSingleAux [] (c :: r) = .ok (m, cv, rem))
    (hm : m ≠ []) : m.head? = some c := by
  by_cases hc1 : c = 123
  · subst hc1
    cases r with
    | nil => simp [sensetizeSingleAux] at h
    | cons c2 r2 =>
      by_cases hc2 : c2 = 123
      · subst hc2
        simp only [sensetizeSingleAux, if_pos rfl] at h
        obtain ⟨t, ht⟩ := sens_acc [123] r2 m cv rem h
        simp [ht]
      · rcases hp : phLoop true [] [] (c2 :: r2) with e | ⟨v, rem2⟩
        · simp [sensetizeSingleAux, hc2, hp] at h
        · simp only [sensetizeSingleAux, if_pos rfl, if_neg hc2, hp, if_true,
            Except.ok.injEq, Prod.mk.injEq] at h
          exact absurd h.1.symm hm
  · by_cases hc2 : c = 125
    · subst hc2
      cases r with
      | nil =>
        have he : sensetizeSingleAux [] [125] = .error .badRightBrace := rfl
        rw [he] at h
        cases h
      | cons c2 r2 =>
        by_cases hc3 : c2 = 125
        · subst hc3
          rw [sensetizeSingleAux.eq_def] at h
          simp only [if_neg hc1, if_pos rfl] at h
          obtain ⟨t, ht⟩ := sens_acc [125] r2 m cv rem h
          simp [ht]
        · rw [sensetizeSingleAux.eq_def] at h
          simp only [if_neg hc1, if_pos rfl, if_neg hc3] at h
          cases h
    · rw [sensetizeSingleAux.eq_def] at h
      simp only [if_neg hc1, if_neg hc2] at h
      obtain ⟨t, ht⟩ := sens_acc [c] r m cv rem h
      simp [ht]


theorem compileChain_adjOK (fuel : Nat) :
    ∀ (input : List Nat) (vars : List Seg) (tail : Option (List Nat)),
      compileChain fuel input = .ok (vars, tail) → adjOK vars tail := by
  induction fuel with
  | zero => intro input vars tail h; simp [compileChain] at h
  | succ fuel ih =>
    intro input vars tail h
    rw [compileChain] at h
    split at h
    · cases h
    · rename_i m snd
      simp only [Except.ok.injEq, Prod.mk.injEq] at h
      rw [← h.1]
      trivial
    · rename_i m v d rem heq
      split at h
      · rename_i hrem
        simp only [Except.ok.injEq, Prod.mk.injEq] at h
        rw [← h.1, ← h.2]
        intro c hc m2 hm2
        cases hm2
      · rename_i hrem
        split at h
        · cases h
        · rename_i vars' tail' heq2
          simp only [Except.ok.injEq, Prod.mk.injEq] at h
          have hadj' : adjOK vars' tail' := ih rem vars' tail' heq2
          have hd : d = rem.head? := sens_delim [] input m v d rem heq
          rcases rem with - | ⟨rc, rr⟩
          · exact absurd rfl hrem
          · rw [List.head?_cons] at hd
            cases fuel with
            | zero => simp [compileChain] at heq2
            | succ g =>
              rw [compileChain] at heq2
              split at heq2
              · cases heq2
              · rename_i m2 snd2 heqs
                simp only [Except.ok.injEq, Prod.mk.injEq] at heq2
                rw [← h.1, ← h.2, ← heq2.1, ← heq2.2]
                intro cd hcd m3 hm3 hne
                injection hm3 with hm3
                subst hm3
                rw [hd] at hcd
                cases hcd
                exact sens_head rc rr m2 none snd2 heqs hne
              · rename_i m2 v2 d2 rem2 heqs
                split at heq2
                · rename_i hrem2
                  simp only [Except.ok.injEq, Prod.mk.injEq] at heq2
                  rw [← h.1, ← h.2, ← heq2.1]
                  refine ⟨?_, by rw [heq2.1]; exact hadj'⟩
                  intro cd hcd hne
                  rw [hd] at hcd
                  cases hcd
                  exact sens_head rc rr m2 (some (v2, d2)) rem2 heqs hne
                · rename_i hrem2
                  split at heq2
                  · cases heq2
                  · rename_i vars2 tail2 heqc
                    simp only [Except.ok.injEq, Prod.mk.injEq] at heq2
                    rw [← h.1, ← h.2, ← heq2.1]
                    refine ⟨?_, by rw [heq2.1]; exact hadj'⟩
                    intro cd hcd hne
                    rw [hd] at hcd
                    cases hcd
                    exact sens_head rc rr m2 (some (v2, d2)) rem2 heqs hne

/-! Claim theorems. -/

/-- Claim C1, counterexample: in the two-step scan compiled from "a{}, {}",
both a leading-literal mismatch (input "b, 1") and a decode failure (input
"ax, 1") make `try_scan` return the opaque unit error `Err(())`, not the
failing step's own error — two distinct step errors (an
`ExpectedMismatch` and an `Inner(invalid-digit)`) collapse to the same
returned error, so the returned error is not the failing step's error. -/
theorem c1_counterexample :
    compileMulti tmplScanA = .ok ([segA1, segA2], none)
    ∧ (tryScan [stepA1, stepA2] none envZero inputScanA1).1 = .error (.err ())
    ∧ (parseSingle decU32 [97] (some 44) inputScanA1).1
        = .error (.expectedMismatch [97] inputScanA1)
    ∧ (tryScan [stepA1, stepA2] none envZero inputScanA2).1 = .error (.err ())
    ∧ (parseSingle decU32 [97] (some 44) inputScanA2).1 = .error (.err .invalidDigit)
    ∧ (TryParseError.expectedMismatch [97] inputScanA1 : TryParseError IntErr)
        ≠ .err .invalidDigit :=
  ⟨rfl, rfl, rfl, rfl, rfl, by decide⟩

/-- Claim C1, amended: in a multi-value match, if any step fails, the whole
match aborts immediately — the result does not depend on the later steps,
which never run — but the error returned to the caller is the unit error
`TryParseError::Err(())`; the failing step's own error (ExpectedMismatch,
InvalidEncoding, or Inner) is discarded by `.or(Err(()))?`.  Inline
destinations are left untouched. -/
theorem c1_scan_aborts {α ε : Type} (pre : List (Step α ε)) (s : Step α ε)
    (post : List (Step α ε)) (tail : Option (List Nat)) (env : Env α)
    (input mid : List Nat) (vals : List α) (e : TryParseError ε)
    (hpre : parseMultiple pre input = .ok (vals, mid))
    (hfail : (parseSingle s.codec s.lit s.delim mid).1 = .error e) :
    parseMultiple (pre ++ s :: post) input = .error ()
    ∧ (tryScan (pre ++ s :: post) tail env input).1 = .error (.err ())
    ∧ (tryScan (pre ++ s :: post) tail env input).2 = env := by
  rcases hps : parseSingle s.codec s.lit s.delim mid with ⟨r, mid'⟩
  have hr : r = .error e := by rw [hps] at hfail; exact hfail
  have hstep : parseMultiple (s :: post) mid = .error () := by
    simp [parseMultiple, hps, hr]
  have hm : parseMultiple (pre ++ s :: post) input = .error () := by
    rw [parseMultiple_append]
    simp [hpre, hstep]
  exact ⟨hm, by simp [tryScan, hm], by simp [tryScan, hm]⟩

/-- Claim C1, witness for the amended theorem at the "a{}, {}" scan on
input "b, 1". -/
theorem c1_scan_aborts_witness :
    parseMultiple ([] ++ stepA1 :: [stepA2]) inputScanA1 = .error ()
    ∧ (tryScan ([] ++ stepA1 :: [stepA2]) none envZero inputScanA1).1
        = .error (.err ())
    ∧ (tryScan ([] ++ stepA1 :: [stepA2]) none envZero inputScanA1).2 = envZero :=
  c1_scan_aborts [] stepA1 [stepA2] none envZero inputScanA1 inputScanA1 []
    (.expectedMismatch [97] inputScanA1) rfl rfl

/-- Claim C2, counterexample: scanning "0b01010 0xDEFG" with
"0b{v0:b} 0x{v1:x}" (destinations starting at -1), the first (inline) step
successfully decodes 10, the second step fails — but after the call the
destination v0 still holds -1, not the decoded 10: the generated code
performs inline writes only after the entire match succeeds, so no write
happened at all. -/
theorem c2_counterexample :
    compileMulti tmplScanB = .ok ([segB1, segB2], none)
    ∧ (parseSingle binI32 stepB1.lit stepB1.delim inputScanB).1 = .ok 10
    ∧ (tryScan [stepB1, stepB2] none envNeg inputScanB).1 = .error (.err ())
    ∧ (tryScan [stepB1, stepB2] none envNeg inputScanB).2 [118, 48] = -1
    ∧ ((-1 : Int) ≠ 10) :=
  ⟨rfl, rfl, rfl, rfl, by decide⟩

/-- Claim C2, amended: when any step of a multi-value match fails, the
match returns an error with no partial result tuple and performs NO inline
write at all: every inline destination keeps its pre-call value, because
the generated assignments run only after the whole match (including the
trailing literal) succeeded. -/
theorem c2_no_writes_on_error {α ε : Type} (steps : List (Step α ε))
    (tail : Option (List Nat)) (env : Env α) (input : List Nat)
    (e : TryParseError Unit)
    (h : (tryScan steps tail env input).1 = .error e) :
    (tryScan steps tail env input).2 = env := by
  rcases hm : parseMultiple steps input with u | ⟨vals, rem⟩
  · simp [tryScan, hm]
  · rcases tail with - | t
    · simp [tryScan, hm] at h
    · by_cases ht : rem = t
      · simp [tryScan, hm, ht] at h
      · simp [tryScan, hm, ht]

/-- Claim C2, witness for the amended theorem at the failing
"0b{v0:b} 0x{v1:x}" scan. -/
theorem c2_no_writes_on_error_witness :
    (tryScan [stepB1, stepB2] none envNeg inputScanB).2 = envNeg :=
  c2_no_writes_on_error [stepB1, stepB2] none envNeg inputScanB (.err ()) rfl

/-- Claim C3, counterexample: the single-value pattern compiled from
"ab{}c" has leading literal "ab" and trailing literal "c"; on input "xb1c"
(whose first two bytes differ from "ab") the match does NOT return
`ExpectedMismatch{expected="ab", actual="xb1c"}`: the generated trailing
comparison runs against the partially advanced iterator ("b1c") even after
the leading failure, and returns
`ExpectedMismatch{expected="c", actual="b1c"}` instead. -/
theorem c3_counterexample :
    compileSingle tmplAbc = .ok (([97, 98], ⟨none, .normal⟩, some 99), some [99])
    ∧ runSingle decU32 (([97, 98], ⟨none, .normal⟩, some 99), some [99]) inputAbc
        = .error (.expectedMismatch [99] [98, 49, 99])
    ∧ (TryParseError.expectedMismatch [99] [98, 49, 99] : TryParseError IntErr)
        ≠ .expectedMismatch [97, 98] inputAbc :=
  ⟨rfl, rfl, by decide⟩

/-- Claim C3, amended: the leading-literal comparison step itself always
produces `ExpectedMismatch{expected=L, actual=entire remaining input}`
when the first `len(L)` input bytes differ from L (including when the
input is shorter), with the reported `actual` taken from the
pre-comparison cursor; and this is the error of the whole single-value
match whenever the pattern declares no trailing literal.  (With a trailing
literal the trailing comparison may override the error, as the
counterexample shows.) -/
theorem c3_leading_mismatch {α ε : Type}
    (codec : List Nat → Except (TryParseError ε) α) (lit : List Nat)
    (delim : Option Nat) (input : List Nat)
    (h : input.take lit.length ≠ lit) :
    (parseSingle codec lit delim input).1 = .error (.expectedMismatch lit input)
    ∧ tryParseSingle codec lit delim none input
        = .error (.expectedMismatch lit input) := by
  have hm := parseSingle_mismatch codec lit delim input h
  exact ⟨by rw [hm], by simp [tryParseSingle, hm]⟩

/-- Claim C3, witness for the amended theorem: leading literal "ab",
input "xb1c". -/
theorem c3_leading_mismatch_witness :
    (parseSingle decU32 [97, 98] (some 99) inputAbc).1
        = .error (.expectedMismatch [97, 98] inputAbc)
    ∧ tryParseSingle decU32 [97, 98] (some 99) none inputAbc
        = .error (.expectedMismatch [97, 98] inputAbc) :=
  c3_leading_mismatch decU32 [97, 98] (some 99) inputAbc (by decide)

/-- Claim C4, confirmed: once the leading literal matched, the bytes handed
to the placeholder's codec are exactly the longest prefix of the remaining
input containing no occurrence of the delimiter D (no escaping, no length
cap): the capture contains no D, capture ++ leftover reassembles the
remaining input, and every D-free prefix is at most as long as the
capture; when there is no delimiter the codec receives the entire
remaining input. -/
theorem c4_capture_window {α ε : Type}
    (codec : List Nat → Except (TryParseError ε) α) (lit : List Nat) (d : Nat)
    (input : List Nat) (hlit : input.take lit.length = lit) :
    ((parseSingle codec lit (some d) input).1
        = codec ((input.drop lit.length).takeWhile (· != d)))
    ∧ (∀ b ∈ (input.drop lit.length).takeWhile (· != d), b ≠ d)
    ∧ ((input.drop lit.length).takeWhile (· != d)
        ++ (input.drop lit.length).dropWhile (· != d) = input.drop lit.length)
    ∧ (∀ n, n ≤ (input.drop lit.length).length →
        (∀ b ∈ (input.drop lit.length).take n, b ≠ d) →
        n ≤ ((input.drop lit.length).takeWhile (· != d)).length)
    ∧ ((parseSingle codec lit none input).1 = codec (input.drop lit.length)) := by
  refine ⟨?_, mem_takeWhile_ne d _, List.takeWhile_append_dropWhile _ _,
    takeWhile_ne_longest d _, ?_⟩
  · rw [parseSingle_ok codec lit (some d) input hlit]; rfl
  · rw [parseSingle_ok codec lit none input hlit]; rfl

/-- Claim C4, witness: literal "a", delimiter comma, input "a10,x". -/
theorem c4_capture_window_witness :
    (parseSingle decU32 [97] (some 44) [97, 49, 48, 44, 120]).1
        = decU32 ((([97, 49, 48, 44, 120] : List Nat).drop 1).takeWhile (· != 44)) :=
  (c4_capture_window decU32 [97] 44 [97, 49, 48, 44, 120] (by decide)).1

/-- Claim C5, confirmed: in a single-value match with a declared trailing
literal T, after the leading literal matched and the decode SUCCEEDED, the
bytes remaining after the capture are still compared against T; whenever
they differ from T the result is
`ExpectedMismatch{expected=T, actual=remaining bytes}`, and when they
equal T the decoded value is returned. -/
theorem c5_trailing_checked {α ε : Type}
    (codec : List Nat → Except (TryParseError ε) α) (lit : List Nat)
    (delim : Option Nat) (t input : List Nat) (v : α)
    (hlit : input.take lit.length = lit)
    (hdec : codec (captureOf delim (input.drop lit.length)) = .ok v)
    (hne : restAfterOf delim (input.drop lit.length) ≠ t) :
    tryParseSingle codec lit delim (some t) input
        = .error (.expectedMismatch t (restAfterOf delim (input.drop lit.length)))
    ∧ tryParseSingle codec lit delim
        (some (restAfterOf delim (input.drop lit.length))) input = .ok v := by
  have hp := parseSingle_ok codec lit delim input hlit
  exact ⟨by simp [tryParseSingle, hp, hne], by simp [tryParseSingle, hp, hdec]⟩

/-- Claim C5, witness: empty leading literal, delimiter comma, trailing
";" against input "10,x" — the decode succeeds with 10 yet the trailing
comparison fails; with the actual remainder ",x" as trailing the match
returns 10. -/
theorem c5_trailing_checked_witness :
    tryParseSingle decU32 [] (some 44) (some [59]) [49, 48, 44, 120]
        = .error (.expectedMismatch [59] [44, 120])
    ∧ tryParseSingle decU32 [] (some 44) (some [44, 120]) [49, 48, 44, 120] = .ok 10 :=
  c5_trailing_checked decU32 [] (some 44) [59] [49, 48, 44, 120] 10 rfl rfl (by decide)

/-- Claim C6, confirmed: on a successful multi-value match, the returned
tuple consists of exactly the non-inline placeholders' values in template
order (its arity is the count of non-inline placeholders), and — when the
inline destination names are pairwise distinct — every inline
placeholder's decoded value has been written to its named destination. -/
theorem c6_inline_and_tuple {α ε : Type} (steps : List (Step α ε))
    (tail : Option (List Nat)) (env : Env α) (input : List Nat) (tup : List α)
    (hok : (tryScan steps tail env input).1 = .ok tup)
    (hnd : (steps.filterMap Step.inlined).Nodup) :
    ∃ vals rem, parseMultiple steps input = .ok (vals, rem)
      ∧ vals.length = steps.length
      ∧ tup = selectAnon steps vals
      ∧ tup.length = steps.countP (fun s => s.inlined.isNone)
      ∧ ∀ (i : Nat) (s : Step α ε) (n : List Nat),
          steps[i]? = some s → s.inlined = some n →
          vals[i]? = some ((tryScan steps tail env input).2 n) := by
  rcases hm : parseMultiple steps input with u | ⟨vals, rem⟩
  · simp [tryScan, hm] at hok
  · have hlen : vals.length = steps.length := parseMultiple_length _ _ _ _ hm
    have hpair : (tryScan steps tail env input).1 = .ok (selectAnon steps vals)
        ∧ (tryScan steps tail env input).2 = writeInls steps vals env := by
      rcases tail with - | t
      · constructor <;> simp [tryScan, hm]
      · by_cases ht : rem = t
        · constructor <;> simp [tryScan, hm, ht]
        · simp [tryScan, hm, ht] at hok
    have htup : tup = selectAnon steps vals := by
      rw [hpair.1] at hok
      exact (Except.ok.inj hok).symm
    refine ⟨vals, rem, rfl, hlen, htup, ?_, ?_⟩
    · rw [htup]
      exact selectAnon_length steps vals hlen
    · intro i s n hs hn
      have hi : i < steps.length := by
        by_contra hge
        rw [List.getElem?_eq_none (Nat.le_of_not_lt hge)] at hs
        cases hs
      have hiv : i < vals.length := by rw [hlen]; exact hi
      have hv : vals[i]? = some vals[i] := List.getElem?_eq_getElem hiv
      have hw : writeInls steps vals env n = vals[i] :=
        writeInls_get steps vals env hnd i s n vals[i] hs hn hv
      rw [hpair.2, hw]
      exact hv

/-- Claim C6, witness: scanning "10, 20" with "{x}, {}" returns the
one-element tuple (20) and writes 10 to the destination x. -/
theorem c6_inline_and_tuple_witness :
    ∃ vals rem, parseMultiple [stepW1, stepW2] inputW = .ok (vals, rem)
      ∧ vals.length = ([stepW1, stepW2] : List (Step Int IntErr)).length
      ∧ [20] = selectAnon [stepW1, stepW2] vals
      ∧ ([20] : List Int).length
          = ([stepW1, stepW2] : List (Step Int IntErr)).countP
              (fun s => s.inlined.isNone)
      ∧ ∀ (i : Nat) (s : Step Int IntErr) (n : List Nat),
          ([stepW1, stepW2] : List (Step Int IntErr))[i]? = some s →
          s.inlined = some n →
          vals[i]? = some ((tryScan [stepW1, stepW2] none envZero inputW).2 n) :=
  c6_inline_and_tuple [stepW1, stepW2] none envZero inputW [20] rfl (by decide)

/-- Claim C7, confirmed: the compiler turns "{{" into the single literal
byte 123 and "}}" into the single literal byte 125, and a bare right brace
not followed by another right brace (including at end of template) is a
compile error; consequently the single-value template "{{{}}}" compiles to
leading literal "{", delimiter "}" and trailing literal "}", and matching
it against "{30}" with the decimal u32 codec yields Ok(30). -/
theorem c7_brace_escapes :
    (∀ acc rest, sensetizeSingleAux acc (123 :: 123 :: rest)
        = sensetizeSingleAux (acc ++ [123]) rest)
    ∧ (∀ acc rest, sensetizeSingleAux acc (125 :: 125 :: rest)
        = sensetizeSingleAux (acc ++ [125]) rest)
    ∧ (∀ acc c rest, c ≠ 125 →
        sensetizeSingleAux acc (125 :: c :: rest) = .error .badRightBrace)
    ∧ (∀ acc, sensetizeSingleAux acc [125] = .error .badRightBrace)
    ∧ compileSingle tmplBraces
        = .ok (([123], ⟨none, .normal⟩, some 125), some [125])
    ∧ runSingle decU32 (([123], ⟨none, .normal⟩, some 125), some [125]) inputBraces
        = .ok 30 := by
  refine ⟨fun acc rest => rfl, fun acc rest => rfl, ?_, fun acc => rfl, rfl, rfl⟩
  intro acc c rest hc
  rw [sensetizeSingleAux.eq_def]
  simp [hc]

/-- Claim C7, witness: a bare right brace before a non-brace character is
rejected. -/
theorem c7_brace_escapes_witness :
    sensetizeSingleAux [] (125 :: 97 :: []) = .error .badRightBrace :=
  c7_brace_escapes.2.2.1 [] 97 [] (by decide)

/-- Claim C8, confirmed: the Hex and Binary codecs are the shared
validate-then-parse integer codec at radix 16 and 2 (the decimal default
is the same codec at radix 10): they first validate the capture is
well-formed UTF-8, then run the integer parser with the substituted radix,
propagating its error (empty, invalid digit, overflow) unchanged inside
`Inner`; "0x{:x}" on "0x1F" yields Ok(31) and on "0xZZ" yields
Err(Inner(invalid-digit)). -/
theorem c8_hex_binary_adapters :
    hexU32 = intCodec 0 u32Max 16
    ∧ binI32 = intCodec i32Min i32Max 2
    ∧ decU32 = intCodec 0 u32Max 10
    ∧ (∀ bytes, utf8Decode bytes = none →
        hexU32 bytes = .error .invalidUtf8String
        ∧ binI32 bytes = .error .invalidUtf8String)
    ∧ (∀ bytes s, utf8Decode bytes = some s →
        hexU32 bytes = (match fromStrRadix 0 u32Max 16 s with
          | .ok v => .ok v
          | .error e => .error (.err e))
        ∧ binI32 bytes = (match fromStrRadix i32Min i32Max 2 s with
          | .ok v => .ok v
          | .error e => .error (.err e)))
    ∧ compileSingle tmplHexPat = .ok (([48, 120], ⟨none, .hex⟩, none), none)
    ∧ runSingle hexU32 (([48, 120], ⟨none, .hex⟩, none), none) inputHexOk = .ok 31
    ∧ runSingle hexU32 (([48, 120], ⟨none, .hex⟩, none), none) inputHexBad
        = .error (.err .invalidDigit) := by
  refine ⟨rfl, rfl, rfl, ?_, ?_, rfl, rfl, rfl⟩
  · intro bytes h
    constructor <;> simp [hexU32, binI32, intCodec, h]
  · intro bytes s h
    constructor <;> simp [hexU32, binI32, intCodec, h]

/-- Claim C8, witness: the invalid byte 0xFF fails UTF-8 validation in
both adapters. -/
theorem c8_hex_binary_adapters_witness :
    hexU32 [255] = .error .invalidUtf8String
    ∧ binI32 [255] = .error .invalidUtf8String :=
  c8_hex_binary_adapters.2.2.2.1 [255] rfl

/-- Claim C9, confirmed: compilation and matching are pure and
deterministic — equal templates compile to equal patterns, the match
result is independent of the initial contents of the inline destinations
(no hidden state is read), and the only side effect is writing the inline
destinations: any name that is not an inline destination of the pattern is
left unchanged. -/
theorem c9_purity {α ε : Type} :
    (∀ t1 t2 : List Nat, t1 = t2 → compileMulti t1 = compileMulti t2)
    ∧ (∀ (steps : List (Step α ε)) (tail : Option (List Nat))
        (env1 env2 : Env α) (input : List Nat),
        (tryScan steps tail env1 input).1 = (tryScan steps tail env2 input).1)
    ∧ (∀ (steps : List (Step α ε)) (tail : Option (List Nat)) (env : Env α)
        (input : List Nat) (n : List Nat),
        n ∉ steps.filterMap Step.inlined →
        (tryScan steps tail env input).2 n = env n) := by
  refine ⟨fun t1 t2 h => by rw [h], ?_, ?_⟩
  · intro steps tail env1 env2 input
    rcases hm : parseMultiple steps input with u | ⟨vals, rem⟩
    · simp [tryScan, hm]
    · rcases tail with - | t
      · simp [tryScan, hm]
      · by_cases ht : rem = t <;> simp [tryScan, hm, ht]
  · intro steps tail env input n hn
    rcases hm : parseMultiple steps input with u | ⟨vals, rem⟩
    · simp [tryScan, hm]
    · rcases tail with - | t
      · simp [tryScan, hm, writeInls_frame steps vals env n hn]
      · by_cases ht : rem = t <;>
          simp [tryScan, hm, ht, writeInls_frame steps vals env n hn]

/-- Claim C9, witness: determinism at the "{{{}}}" template and the frame
property at a name that is not an inline destination. -/
theorem c9_purity_witness :
    compileMulti tmplBraces = compileMulti tmplBraces
    ∧ (tryScan [stepW1, stepW2] none envZero inputW).2 [121] = envZero [121] :=
  ⟨(c9_purity (α := Int) (ε := IntErr)).1 tmplBraces tmplBraces rfl,
    (c9_purity (α := Int) (ε := IntErr)).2.2 [stepW1, stepW2] none envZero inputW
      [121] (by decide)⟩

/-- Claim C10, counterexample: in "{}{}" the character after the first
placeholder's closing brace is the opening brace of the next placeholder,
so the recorded delimiter is 123 while the following literal anchor is
EMPTY — the delimiter is not its first byte; scanning "a{b" succeeds with
("a", "{b"): the delimiter byte 123 is never consumed by any literal, it
ends up inside the second capture. -/
theorem c10_counterexample :
    compileMulti tmplAdj = .ok ([segAdj1, segAdj2], none)
    ∧ segAdj1.2.2 = some 123
    ∧ segAdj2.1 = []
    ∧ (([] : List Nat).head? ≠ some 123)
    ∧ (tryScan [stepAdj1, stepAdj2] none envNil inputAdj).1 = .ok [[97], [123, 98]]
    ∧ 123 ∈ [123, 98] :=
  ⟨rfl, rfl, rfl, by decide, rfl, by decide⟩

/-- Claim C10, amended: the compiler records the delimiter by peeking (not
consuming) the character after the closing brace, so whenever the
FOLLOWING literal anchor is non-empty its first character is exactly the
recorded delimiter (when the next character instead opens another
placeholder, the recorded delimiter is the brace and the following anchor
is empty — see the counterexample); the capture never contains the
delimiter and stops exactly before its first occurrence, which is then the
head of what the following literal is matched against (consumed exactly
once, by that literal); if the delimiter never occurs the capture extends
to end of input and a following non-empty literal comparison then fails on
empty input.  For an ASCII delimiter character the first byte of the
encoded literal is that same delimiter byte. -/
theorem c10_delimiter_peek :
    (∀ (fuel : Nat) (input : List Nat) (vars : List Seg)
        (tail : Option (List Nat)),
        compileChain fuel input = .ok (vars, tail) → adjOK vars tail)
    ∧ (∀ (d : Nat) (rest : List Nat), ∀ b ∈ rest.takeWhile (· != d), b ≠ d)
    ∧ (∀ (d : Nat) (rest : List Nat), d ∈ rest →
        ∃ rest', rest = rest.takeWhile (· != d) ++ d :: rest'
          ∧ d ∉ rest.takeWhile (· != d))
    ∧ (∀ (d : Nat) (rest : List Nat), d ∉ rest →
        rest.takeWhile (· != d) = rest ∧ rest.dropWhile (· != d) = [])
    ∧ (∀ (α ε : Type) (codec : List Nat → Except (TryParseError ε) α)
        (lit : List Nat) (delim : Option Nat), lit ≠ [] →
        (parseSingle codec lit delim []).1 = .error (.expectedMismatch lit []))
    ∧ (∀ (c : Nat) (s : List Nat), c < 128 → (utf8Encode (c :: s)).head? = some c) := by
  refine ⟨compileChain_adjOK, mem_takeWhile_ne, ?_, takeWhile_ne_of_not_mem, ?_, ?_⟩
  · intro d rest hd
    obtain ⟨l', hl'⟩ := dropWhile_ne_of_mem d rest hd
    refine ⟨l', ?_, fun hmem => (mem_takeWhile_ne d rest d hmem) rfl⟩
    conv_lhs => rw [← List.takeWhile_append_dropWhile (p := (· != d)) (l := rest)]
    rw [hl']
  · intro α ε codec lit delim hlit
    have h : ([] : List Nat).take lit.length ≠ lit := by
      simpa using hlit
    rw [parseSingle_mismatch codec lit delim [] h]
  · intro c s hc
    simp [utf8Encode, utf8EncodeChar, hc]

/-- Claim C10, witness for the amended theorem: the compiled "a{}, {}"
chain satisfies the adjacency invariant; the capture/delimiter facts at
delimiter comma over "1,2"; a non-empty literal fails on empty input; and
the literal ", " starts with the delimiter byte. -/
theorem c10_delimiter_peek_witness :
    adjOK [segA1, segA2] none
    ∧ (∃ rest', ([49, 44, 50] : List Nat)
          = ([49, 44, 50] : List Nat).takeWhile (· != 44) ++ 44 :: rest'
          ∧ 44 ∉ ([49, 44, 50] : List Nat).takeWhile (· != 44))
    ∧ (parseSingle decU32 [44, 32] none ([] : List Nat)).1
        = .error (.expectedMismatch [44, 32] [])
    ∧ (utf8Encode [44, 32]).head? = some 44 :=
  ⟨c10_delimiter_peek.1 (tmplScanA.length + 1) tmplScanA [segA1, segA2] none rfl,
    c10_delimiter_peek.2.2.1 44 [49, 44, 50] (by decide),
    c10_delimiter_peek.2.2.2.2.1 Int IntErr decU32 [44, 32] none (by decide),
    c10_delimiter_peek.2.2.2.2.2 44 [32] (by decide)⟩

end Strp
